import Mathlib

/-!
Verification of the DevEvent persistence core: a shallow embedding of the
event/booking schema validation and derivation logic and of the database
connection manager, with theorems settling the specification's claims.

Sources embedded:
- `src/database/event.model.ts` (slug derivation with base-36 timestamp
  suffix, time validation/normalization, agenda/tags validators);
- `src/unnamed/part_001` (a second revision of the event model: slug without
  timestamp suffix, weaker agenda/tags validators);
- `src/database/booking.model.ts` (email regex, normalization, pre-save
  referential check, compound unique index);
- `src/lib/mongodb.ts` (two revisions of the connection manager: one reads
  the connection string at module load and fails fast, the other — identical
  to `src/unnamed/part_005` — reads it on each call).
-/

namespace DevEvent

/-! ## JavaScript character/string primitives -/

/-- JavaScript whitespace as matched by `\s` and removed by `String.trim`
(ASCII whitespace plus no-break space; the full JS class also has rarer
Unicode spaces that never occur in the examples at issue). -/
def isJsSpace (c : Char) : Bool :=
  c == ' ' || c == '\t' || c == '\n' || c == '\r' ||
  c == '\x0b' || c == '\x0c' || c == ' '

/-- `String.prototype.trim` on the character list: drop whitespace from both
ends. -/
def jsTrimList (l : List Char) : List Char :=
  ((l.dropWhile isJsSpace).reverse.dropWhile isJsSpace).reverse

/-- `String.prototype.trim`. -/
def jsTrim (s : String) : String :=
  String.mk (jsTrimList s.data)

/-! ## Time validation and normalization
(`EventSchema.pre('save')`, src/database/event.model.ts lines 141-158;
identical in src/unnamed/part_001 lines 137-154). -/

/-- Numeric value of a decimal digit character. -/
def digitVal (c : Char) : Nat := c.toNat - 48

/-- `this.time.match(/^(\d{1,2}):(\d{2})$/)` together with
`Number(match[1])` / `Number(match[2])`: one-or-two digit hour, a colon,
exactly two digit minute; returns the decimal values of the two groups. -/
def timeMatch (s : String) : Option (Nat × Nat) :=
  match s.data with
  | [h1, c, m1, m2] =>
    if h1.isDigit && (c == ':') && m1.isDigit && m2.isDigit then
      some (digitVal h1, 10 * digitVal m1 + digitVal m2)
    else none
  | [h1, h2, c, m1, m2] =>
    if h1.isDigit && h2.isDigit && (c == ':') && m1.isDigit && m2.isDigit then
      some (10 * digitVal h1 + digitVal h2, 10 * digitVal m1 + digitVal m2)
    else none
  | _ => none

/-- `n.toString().padStart(2, '0')` for a `Number` holding a natural. -/
def pad2 (n : Nat) : String :=
  if (toString n).length < 2 then "0" ++ toString n else toString n

/-- Errors raised by the save-time hooks and validators of the event model. -/
inductive TimeError where
  | invalidFormat  -- "Invalid time format. Expected HH:MM (24-hour)."
  | invalidValue   -- "Invalid time value."
  deriving DecidableEq, Repr

/-- The time branch of `EventSchema.pre('save')`: reject when the pattern
does not match, reject when hour > 23 or minute > 59, otherwise store the
zero-padded rendering. -/
def normalizeTime (s : String) : Except TimeError String :=
  match timeMatch s with
  | none => Except.error TimeError.invalidFormat
  | some (hours, minutes) =>
    if hours > 23 || minutes > 59 then Except.error TimeError.invalidValue
    else Except.ok (pad2 hours ++ ":" ++ pad2 minutes)

/-! ## Email validation
(`emailRegex` and the `email` field, src/database/booking.model.ts
lines 15 and 34-43). -/

/-- The character class `[^\s@]`: anything but whitespace and the at sign. -/
def emailChar (c : Char) : Bool := !(isJsSpace c) && c != '@'

/-- One-or-more repetition of `emailChar` followed by the continuation `k`,
with the backtracking semantics of a regex engine: consume at least one
`emailChar`, then either hand the rest to `k` or keep consuming. -/
def plusThen (k : List Char → Bool) : List Char → Bool
  | [] => false
  | c :: cs => emailChar c && (k cs || plusThen k cs)

/-- The tail `\.[^\s@]+$` of the email regex. -/
def emailTail2 : List Char → Bool
  | [] => false
  | c :: r => c == '.' && plusThen List.isEmpty r

/-- The tail `@[^\s@]+\.[^\s@]+$` of the email regex. -/
def emailTail1 : List Char → Bool
  | [] => false
  | c :: r => c == '@' && plusThen emailTail2 r

/-- `emailRegex.test(value)` for `/^[^\s@]+@[^\s@]+\.[^\s@]+$/`
(src/database/booking.model.ts line 15). -/
def emailRegexTest (s : String) : Bool :=
  plusThen emailTail1 s.data

/-- `String.prototype.toLowerCase` (ASCII case mapping, which covers every
email in the schema's own test suite). -/
def jsToLower (s : String) : String :=
  String.mk (s.data.map Char.toLower)

/-- The mongoose `trim: true` and `lowercase: true` setters applied to the
`email` path before validation and storage. -/
def normalizeEmail (s : String) : String :=
  jsToLower (jsTrim s)

/-! ## Slug derivation
(`slugifyTitle`, src/database/event.model.ts lines 28-33 and
src/unnamed/part_001 lines 28-33; the pre-save assignment
src/database/event.model.ts line 137 and src/unnamed/part_001 line 133). -/

/-- The character class `[a-z0-9]` of the slug regex. -/
def isLowerAlnum (c : Char) : Bool :=
  ('a' ≤ c && c ≤ 'z') || ('0' ≤ c && c ≤ '9')

/-- `.replace(/[^a-z0-9]+/g, '-')`: every maximal run of characters outside
`[a-z0-9]` becomes a single hyphen. The flag records whether the previous
character belonged to such a run. -/
def collapseNonAlnum (inRun : Bool) : List Char → List Char
  | [] => []
  | c :: cs =>
    if isLowerAlnum c then c :: collapseNonAlnum false cs
    else if inRun then collapseNonAlnum true cs
    else '-' :: collapseNonAlnum true cs

/-- `.replace(/^-+|-+$/g, '')`: strip leading and trailing hyphens. -/
def stripEdgeHyphens (l : List Char) : List Char :=
  (((l.dropWhile (· == '-')).reverse.dropWhile (· == '-'))).reverse

/-- `slugifyTitle` (src/database/event.model.ts lines 28-33): lower-case,
trim, collapse runs of non-alphanumerics to single hyphens, strip edge
hyphens. -/
def slugifyTitle (title : String) : String :=
  String.mk (stripEdgeHyphens (collapseNonAlnum false (jsTrimList (title.data.map Char.toLower))))

/-- A base-36 digit as produced by `Number.prototype.toString(36)`:
`0`-`9` then `a`-`z`. -/
def b36digit (d : Nat) : Char :=
  if d < 10 then Char.ofNat (48 + d) else Char.ofNat (97 + (d - 10))

/-- Digit list of `n.toString(36)`: most significant first, no leading
zeros, `"0"` for zero. -/
def toBase36List (n : Nat) : List Char :=
  if h : n < 36 then [b36digit n]
  else toBase36List (n / 36) ++ [b36digit (n % 36)]
  decreasing_by
    exact Nat.div_lt_self (Nat.lt_of_lt_of_le (by decide) (Nat.le_of_not_lt h)) (by decide)

/-- `Date.now().toString(36)` for a millisecond timestamp `n`. -/
def toBase36 (n : Nat) : String := String.mk (toBase36List n)

/-- The slug assigned by `EventSchema.pre('save')` in
src/database/event.model.ts line 137: `slugifyTitle(title)` plus a hyphen
and the base-36 rendering of the save's `Date.now()` timestamp. -/
def eventSlug (title : String) (now : Nat) : String :=
  slugifyTitle title ++ "-" ++ toBase36 now

/-- The slug assigned by `EventSchema.pre('save')` in src/unnamed/part_001
line 133: no timestamp suffix. -/
def eventSlugV1 (title : String) : String :=
  slugifyTitle title

/-- Characters a slug may contain: lowercase alphanumerics and hyphens. -/
def slugCharOk (c : Char) : Bool := isLowerAlnum c || c == '-'

/-! ## Booking save pipeline
(src/database/booking.model.ts: the `email` path setters and validator
lines 34-43, the pre-save referential hook lines 58-69, and the compound
unique index on `(eventId, email)` line 53). Event identifiers are modelled
as naturals; the persistent state carries the set of existing event ids and
the stored `(eventId, email)` pairs guarded by the unique index. -/

/-- Errors a booking save can surface. -/
inductive BookingError where
  | invalidFormat    -- "Invalid email format."
  | referenceError   -- "Referenced event does not exist."
  | uniquenessError  -- duplicate (eventId, email) rejected by the index
  deriving DecidableEq, Repr

/-- The storage state the booking operations run against. -/
structure Store where
  events : List Nat
  bookings : List (Nat × String)
  deriving DecidableEq, Repr

/-- `BookingSchema.pre('save')` (src/database/booking.model.ts lines 58-69):
return early when the record is neither new nor has a modified `eventId`;
otherwise run `Event.exists({ _id: this.eventId })` and throw when absent.
The first component records whether the lookup was performed. -/
def bookingPreSave (isNew modifiedEventId : Bool) (events : List Nat) (eventId : Nat) :
    Bool × Except BookingError Unit :=
  if !isNew && !modifiedEventId then (false, Except.ok ())
  else if eventId ∈ events then (true, Except.ok ())
  else (true, Except.error BookingError.referenceError)

/-- Saving a freshly constructed booking (`new Booking(...).save()`):
the `email` setters normalize, the validator applies `emailRegex` to the
normalized value, the pre-save hook checks the event reference (always, as
the record is new), and the unique index rejects a duplicate
`(eventId, email)` pair; otherwise the normalized email is persisted. -/
def saveNewBooking (st : Store) (eventId : Nat) (email : String) :
    Except BookingError Store :=
  let e := normalizeEmail email
  if emailRegexTest e = false then Except.error BookingError.invalidFormat
  else if eventId ∈ st.events then
    if (eventId, e) ∈ st.bookings then Except.error BookingError.uniquenessError
    else Except.ok ⟨st.events, (eventId, e) :: st.bookings⟩
  else Except.error BookingError.referenceError

/-! ## Connection manager
(src/lib/mongodb.ts, which holds two revisions of the module, and
src/unnamed/part_005). A connection handle is modelled as a natural; the
global `_mongoose` cache carries the cached connection and the in-flight
attempt, the latter modelled by the outcome the underlying
`mongoose.connect` promise eventually settles to. The outcome a fresh
attempt would have is passed in as `attempt`. -/

/-- Connection-layer errors. -/
inductive DbError where
  | configurationError  -- "MONGODB_URI environment variable is not defined"
  | connectionError     -- failure of the underlying connection attempt
  deriving DecidableEq, Repr

/-- The global `_mongoose` cache (`{ conn, promise }`). -/
structure MongooseCache where
  conn : Option Nat
  promise : Option (Except DbError Nat)
  deriving Repr

/-- Module initialization of the fail-fast revision
(src/lib/mongodb.ts lines 33-37): `process.env.MONGODB_URI` is read at the
top level of the module and the module throws while loading when it is
unset, otherwise the value is captured for later calls. -/
def moduleLoadFailFast (env : Option String) : Except DbError String :=
  match env with
  | none => Except.error DbError.configurationError
  | some uri => Except.ok uri

/-- Module initialization of the call-time revisions (the second revision in
src/lib/mongodb.ts and src/unnamed/part_005): no top-level configuration
read exists, so loading always succeeds, whatever the environment. -/
def moduleLoadCallTime (env : Option String) : Except DbError Unit :=
  Except.ok ()

/-- `connectToDatabase()` of the call-time revisions (second revision of
src/lib/mongodb.ts lines 105-146 and src/unnamed/part_005 lines 32-64; the
`.then`/`.catch` logging wrappers of the former only log and rethrow):
read `process.env.MONGODB_URI` and throw when unset; return the cached
connection if present; otherwise adopt the in-flight attempt or start a new
one, and await it — caching the connection on success, clearing the promise
and rethrowing on failure. Returns the updated cache and the call's result.
-/
def connectToDatabase (env : Option String) (cache : MongooseCache)
    (attempt : Except DbError Nat) : MongooseCache × Except DbError Nat :=
  match env with
  | none => (cache, Except.error DbError.configurationError)
  | some _ =>
    match cache.conn with
    | some c => (cache, Except.ok c)
    | none =>
      let promise := match cache.promise with
        | some p => p
        | none => attempt
      match promise with
      | Except.ok c => ({ conn := some c, promise := some (Except.ok c) }, Except.ok c)
      | Except.error e => ({ conn := cache.conn, promise := none }, Except.error e)

/-! ## Agenda/tags validators
(src/database/event.model.ts lines 98-124 and src/unnamed/part_001
lines 100-120). `Array.isArray(value)` always holds for the modelled list
values. -/

/-- The `agenda`/`tags` validator of src/database/event.model.ts:
`value.length > 0 && value.every((v) => v.trim().length > 0)`. -/
def agendaTagsValidator (value : List String) : Bool :=
  decide (value.length > 0) && value.all (fun v => decide ((jsTrim v).length > 0))

/-- The `agenda`/`tags` validator of src/unnamed/part_001:
`v.length > 0` only. -/
def agendaTagsValidatorV1 (value : List String) : Bool :=
  decide (value.length > 0)

end DevEvent

namespace DevEvent

/-- C1: For every time string on an event save where the time hook runs,
the save fails with InvalidFormat unless the string matches one-or-two digit
hour, colon, exactly two digit minute; it fails with InvalidValue when the
matched hour exceeds 23 or minute exceeds 59; otherwise the stored time is
the zero-padded two-digit rendering ("9:05" becomes "09:05"). -/
theorem time_normalization_trichotomy :
    (∀ s : String, timeMatch s = none →
      normalizeTime s = Except.error TimeError.invalidFormat) ∧
    (∀ (s : String) (h m : Nat), timeMatch s = some (h, m) →
      (23 < h ∨ 59 < m) → normalizeTime s = Except.error TimeError.invalidValue) ∧
    (∀ (s : String) (h m : Nat), timeMatch s = some (h, m) →
      h ≤ 23 → m ≤ 59 → normalizeTime s = Except.ok (pad2 h ++ ":" ++ pad2 m)) ∧
    normalizeTime "1430" = Except.error TimeError.invalidFormat ∧
    normalizeTime "14:30:00" = Except.error TimeError.invalidFormat ∧
    normalizeTime "14:5" = Except.error TimeError.invalidFormat ∧
    normalizeTime "ab:cd" = Except.error TimeError.invalidFormat ∧
    normalizeTime "24:00" = Except.error TimeError.invalidValue ∧
    normalizeTime "14:60" = Except.error TimeError.invalidValue ∧
    normalizeTime "9:05" = Except.ok "09:05" ∧
    normalizeTime "0:00" = Except.ok "00:00" ∧
    normalizeTime "23:59" = Except.ok "23:59" := by
  refine ⟨?_, ?_, ?_, ?_, ?_, ?_, ?_, ?_, ?_, ?_, ?_, ?_⟩
  · intro s hnone
    simp [normalizeTime, hnone]
  · intro s h m hsome hover
    simp only [normalizeTime, hsome]
    have : (h > 23 || m > 59) = true := by
      rcases hover with h1 | h1 <;> simp [h1]
    simp [this]
  · intro s h m hsome hh hm
    simp only [normalizeTime, hsome]
    have : (h > 23 || m > 59) = false := by
      simp [Nat.not_lt.mpr hh, Nat.not_lt.mpr hm]
    simp [this]
  all_goals rfl

/-- Concrete instantiation of the hypothesis-bearing clauses of
`time_normalization_trichotomy`. -/
theorem time_normalization_trichotomy_witness :
    normalizeTime "14:99" = Except.error TimeError.invalidValue ∧
    normalizeTime "7:30" = Except.ok (pad2 7 ++ ":" ++ pad2 30) := by
  constructor
  · exact time_normalization_trichotomy.2.1 "14:99" 14 99 (by decide) (Or.inr (by decide))
  · exact time_normalization_trichotomy.2.2.1 "7:30" 7 30 (by decide) (by decide) (by decide)

/-- `plusThen k` accepts exactly the lists that split into a non-empty
`emailChar` block followed by a list accepted by `k`. -/
theorem plusThen_iff (k : List Char → Bool) :
    ∀ l : List Char, plusThen k l = true ↔
      ∃ p q : List Char, l = p ++ q ∧ p ≠ [] ∧ p.all emailChar = true ∧ k q = true := by
  intro l
  induction l with
  | nil =>
    simp only [plusThen]
    constructor
    · intro h; simp at h
    · rintro ⟨p, q, hpq, hp, -, -⟩
      exact absurd (List.append_eq_nil.mp hpq.symm).1 hp
  | cons c cs ih =>
    simp only [plusThen, Bool.and_eq_true, Bool.or_eq_true]
    constructor
    · rintro ⟨hc, hk | hrec⟩
      · exact ⟨[c], cs, rfl, by simp, by simp [hc], hk⟩
      · obtain ⟨p, q, hpq, hp, hall, hkq⟩ := ih.mp hrec
        refine ⟨c :: p, q, by simp [hpq], by simp, ?_, hkq⟩
        simp [List.all_cons, hc, hall]
    · rintro ⟨p, q, hpq, hp, hall, hkq⟩
      match p, hp, hpq, hall with
      | p0 :: p', _, hpq, hall =>
        injection hpq with h1 h2
        subst h1
        simp only [List.all_cons, Bool.and_eq_true] at hall
        refine ⟨hall.1, ?_⟩
        cases p' with
        | nil =>
          refine Or.inl ?_
          have hqcs : q = cs := by simpa using h2.symm
          exact hqcs ▸ hkq
        | cons d p'' =>
          exact Or.inr (ih.mpr ⟨d :: p'', q, h2, by simp, hall.2, hkq⟩)

/-- `emailTail2` accepts exactly a dot followed by a non-empty `emailChar`
block. -/
theorem emailTail2_iff (l : List Char) :
    emailTail2 l = true ↔
      ∃ b : List Char, l = '.' :: b ∧ b ≠ [] ∧ b.all emailChar = true := by
  cases l with
  | nil => simp [emailTail2]
  | cons c r =>
    simp only [emailTail2, Bool.and_eq_true, beq_iff_eq]
    constructor
    · rintro ⟨hc, hplus⟩
      obtain ⟨p, q, hpq, hp, hall, hq⟩ := (plusThen_iff _ r).mp hplus
      have hq' : q = [] := by simpa [List.isEmpty_iff] using hq
      subst hq' hc
      exact ⟨p, by simp [hpq], hp, hall⟩
    · rintro ⟨b, hl, hb, hall⟩
      injection hl with h1 h2
      subst h1 h2
      exact ⟨rfl, (plusThen_iff _ r).mpr ⟨r, [], by simp, hb, hall, rfl⟩⟩

/-- `emailTail1` accepts exactly an at sign followed by a domain of the form
`a ++ "." ++ b` with `a`, `b` non-empty `emailChar` blocks (where `a` and `b`
may themselves contain further dots). -/
theorem emailTail1_iff (l : List Char) :
    emailTail1 l = true ↔
      ∃ a b : List Char, l = '@' :: (a ++ '.' :: b) ∧ a ≠ [] ∧ b ≠ [] ∧
        a.all emailChar = true ∧ b.all emailChar = true := by
  cases l with
  | nil => simp [emailTail1]
  | cons c r =>
    simp only [emailTail1, Bool.and_eq_true, beq_iff_eq]
    constructor
    · rintro ⟨hc, hplus⟩
      obtain ⟨a, q, hpq, ha, hall, hq⟩ := (plusThen_iff _ r).mp hplus
      obtain ⟨b, hq', hb, hballl⟩ := (emailTail2_iff q).mp hq
      subst hc hq'
      exact ⟨a, b, by simp [hpq], ha, hb, hall, hballl⟩
    · rintro ⟨a, b, hl, ha, hb, halla, hallb⟩
      injection hl with h1 h2
      subst h1 h2
      refine ⟨rfl, (plusThen_iff _ _).mpr ⟨a, '.' :: b, rfl, ha, halla, ?_⟩⟩
      exact (emailTail2_iff _).mpr ⟨b, rfl, hb, hallb⟩

/-- C2: behaviour of `emailRegex` at the specification's examples. The regex
accepts exactly the strings `local@domain` where the local part is a
non-empty run of non-whitespace non-`@` characters and the domain contains an
interior dot; it places no constraint on dots adjacent to `@` or to the ends
of the local part, so `".user@example.com"` and `"user.@example.com"` are
accepted — although the repository's own booking tests expect both to be
rejected with "Invalid email format." (src/unnamed/part_000, the tests
"should reject email starting with dot" and "should reject email ending with
dot before @"). -/
theorem emailRegex_characterization_and_eval :
    (∀ s : String, emailRegexTest s = true ↔
      ∃ l a b : List Char,
        s.data = l ++ '@' :: (a ++ '.' :: b) ∧
        l ≠ [] ∧ a ≠ [] ∧ b ≠ [] ∧
        l.all emailChar = true ∧ a.all emailChar = true ∧ b.all emailChar = true) ∧
    emailRegexTest "invalidemail.com" = false ∧
    emailRegexTest "user@" = false ∧
    emailRegexTest "@example.com" = false ∧
    emailRegexTest "user@example" = false ∧
    emailRegexTest "user name@example.com" = false ∧
    emailRegexTest "user@@example.com" = false ∧
    emailRegexTest "user#name@example.com" = true ∧
    emailRegexTest "user@example.co.uk" = true ∧
    emailRegexTest "user+tag@example.com" = true ∧
    emailRegexTest ".user@example.com" = true ∧
    emailRegexTest "user.@example.com" = true := by
  refine ⟨?_, ?_, ?_, ?_, ?_, ?_, ?_, ?_, ?_, ?_, ?_, ?_⟩
  · intro s
    unfold emailRegexTest
    rw [plusThen_iff]
    constructor
    · rintro ⟨l, q, hpq, hl, halll, hq⟩
      obtain ⟨a, b, hq', ha, hb, halla, hallb⟩ := (emailTail1_iff q).mp hq
      exact ⟨l, a, b, by simp [hpq, hq'], hl, ha, hb, halll, halla, hallb⟩
    · rintro ⟨l, a, b, hdata, hl, ha, hb, halll, halla, hallb⟩
      refine ⟨l, '@' :: (a ++ '.' :: b), hdata, hl, halll, ?_⟩
      exact (emailTail1_iff _).mpr ⟨a, b, rfl, ha, hb, halla, hallb⟩
  all_goals rfl

/-- Concrete instantiation of the characterization clause of
`emailRegex_characterization_and_eval`: the decomposition it produces for
the leading-dot address. -/
theorem emailRegex_characterization_and_eval_witness :
    ∃ l a b : List Char,
      (String.data ".user@example.com") = l ++ '@' :: (a ++ '.' :: b) ∧
      l ≠ [] ∧ a ≠ [] ∧ b ≠ [] ∧
      l.all emailChar = true ∧ a.all emailChar = true ∧ b.all emailChar = true :=
  (emailRegex_characterization_and_eval.1 ".user@example.com").mp (by rfl)

/-- `b36digit` is injective below 36. -/
theorem b36digit_inj :
    ∀ d1 : Nat, d1 < 36 → ∀ d2 : Nat, d2 < 36 → b36digit d1 = b36digit d2 → d1 = d2 := by
  decide

/-- `toString(36)` never produces the empty digit string. -/
theorem toBase36List_ne_nil (n : Nat) : toBase36List n ≠ [] := by
  unfold toBase36List
  split
  · simp
  · simp

/-- Distinct numbers have distinct base-36 renderings. -/
theorem toBase36List_inj : ∀ m n : Nat, toBase36List m = toBase36List n → m = n := by
  intro m
  induction m using Nat.strong_induction_on with
  | _ m ih =>
    intro n h
    by_cases hm : m < 36 <;> by_cases hn : n < 36
    · unfold toBase36List at h
      rw [dif_pos hm, dif_pos hn] at h
      have hd : b36digit m = b36digit n := by injection h
      exact b36digit_inj m hm n hn hd
    · exfalso
      unfold toBase36List at h
      rw [dif_pos hm, dif_neg hn] at h
      have hlen := congrArg List.length h
      simp only [List.length_append, List.length_cons, List.length_nil] at hlen
      have : (toBase36List (n / 36)).length = 0 := by omega
      exact toBase36List_ne_nil (n / 36) (List.eq_nil_of_length_eq_zero this)
    · exfalso
      unfold toBase36List at h
      rw [dif_neg hm, dif_pos hn] at h
      have hlen := congrArg List.length h
      simp only [List.length_append, List.length_cons, List.length_nil] at hlen
      have : (toBase36List (m / 36)).length = 0 := by omega
      exact toBase36List_ne_nil (m / 36) (List.eq_nil_of_length_eq_zero this)
    · unfold toBase36List at h
      rw [dif_neg hm, dif_neg hn] at h
      obtain ⟨h1, h2⟩ := List.append_inj' h rfl
      have hd : b36digit (m % 36) = b36digit (n % 36) := by injection h2
      have hmod : m % 36 = n % 36 :=
        b36digit_inj _ (Nat.mod_lt _ (by omega)) _ (Nat.mod_lt _ (by omega)) hd
      have hdiv : m / 36 = n / 36 :=
        ih (m / 36) (Nat.div_lt_self (by omega) (by omega)) (n / 36) h1
      omega

/-- C3 counterexample: two events with the same title saved in the same
millisecond tick (same `Date.now()` value) derive the *same* slug — the
base-36 suffix cannot separate them, contradicting the claim that the two
derived slugs are always distinct. (The repository's own test works around
this with an explicit delay: src/__tests__/database/event.model.test.ts,
"Small delay to ensure different timestamps".) -/
theorem eventSlug_same_tick_collision :
    eventSlug "devfest" 1000 = eventSlug "devfest" 1000 ∧
    eventSlug "devfest" 1000 = "devfest-rs" := by
  have e1 : toBase36List 1000 = toBase36List 27 ++ [b36digit 28] := by
    rw [toBase36List.eq_def]; norm_num
  have e2 : toBase36List 27 = [b36digit 27] := by
    rw [toBase36List.eq_def]; norm_num
  have e3 : toBase36 1000 = "rs" := by
    simp only [toBase36, e1, e2]
    rfl
  constructor
  · rfl
  · show slugifyTitle "devfest" ++ "-" ++ toBase36 1000 = "devfest-rs"
    rw [e3]
    rfl

/-- C3 amended: two events with an identical title receive distinct slugs
whenever their save timestamps differ; within the same millisecond the
derived slugs coincide. -/
theorem eventSlug_inj_of_distinct_tick :
    ∀ (title : String) (n1 n2 : Nat), n1 ≠ n2 →
      eventSlug title n1 ≠ eventSlug title n2 := by
  intro title n1 n2 hne heq
  have hdata := congrArg String.data heq
  simp only [eventSlug, String.data_append, toBase36] at hdata
  have htail := List.append_cancel_left hdata
  exact hne (toBase36List_inj n1 n2 htail)

/-- Concrete instantiation of `eventSlug_inj_of_distinct_tick`. -/
theorem eventSlug_inj_of_distinct_tick_witness :
    eventSlug "devfest" 1000 ≠ eventSlug "devfest" 1001 :=
  eventSlug_inj_of_distinct_tick "devfest" 1000 1001 (by decide)

/-- Every character emitted by the run-collapsing replacement is a lowercase
alphanumeric or a hyphen. -/
theorem collapseNonAlnum_all (l : List Char) :
    ∀ b : Bool, (collapseNonAlnum b l).all slugCharOk = true := by
  induction l with
  | nil => intro b; rfl
  | cons c cs ih =>
    intro b
    simp only [collapseNonAlnum]
    by_cases hc : isLowerAlnum c = true
    · simp only [if_pos hc, List.all_cons, Bool.and_eq_true]
      exact ⟨by simp [slugCharOk, hc], ih false⟩
    · simp only [if_neg hc]
      cases b with
      | true => simpa using ih true
      | false =>
        simp only [Bool.false_eq_true, if_false, List.all_cons, Bool.and_eq_true]
        exact ⟨by simp [slugCharOk], ih true⟩

/-- Dropping a prefix cannot introduce new characters: `all` survives. -/
theorem all_dropWhile {p q : Char → Bool} {l : List Char} (h : l.all p = true) :
    (l.dropWhile q).all p = true := by
  rw [List.all_eq_true] at h ⊢
  exact fun x hx => h x (List.dropWhile_subset q hx)

/-- When `dropWhile` leaves something, the last element is unchanged. -/
theorem getLast?_dropWhile_of_ne_nil {p : Char → Bool} :
    ∀ l : List Char, l.dropWhile p ≠ [] → (l.dropWhile p).getLast? = l.getLast? := by
  intro l
  induction l with
  | nil => intro h; simp at h
  | cons a as ih =>
    intro hne
    by_cases hp : p a = true
    · rw [List.dropWhile_cons_of_pos hp] at hne ⊢
      rw [ih hne]
      cases as with
      | nil => simp [List.dropWhile_nil] at hne
      | cons b bs => simp
    · rw [List.dropWhile_cons_of_neg (by simp [hp])]

/-- The head left by `dropWhile p` never satisfies `p`. -/
theorem head?_dropWhile_false {p : Char → Bool} {l : List Char} {c : Char}
    (h : (l.dropWhile p).head? = some c) : p c = false := by
  have := List.head?_dropWhile_not p l
  rw [h] at this
  exact this

/-- Stripping edge hyphens preserves the character set. -/
theorem stripEdgeHyphens_all {p : Char → Bool} {l : List Char} (h : l.all p = true) :
    (stripEdgeHyphens l).all p = true := by
  unfold stripEdgeHyphens
  rw [List.all_reverse]
  exact all_dropWhile (by rw [List.all_reverse]; exact all_dropWhile h)

/-- After stripping, the first character is never a hyphen. -/
theorem stripEdgeHyphens_head {l : List Char} {c : Char}
    (h : (stripEdgeHyphens l).head? = some c) : (c == '-') = false := by
  unfold stripEdgeHyphens at h
  rw [List.head?_reverse] at h
  set q := (l.dropWhile (· == '-')).reverse.dropWhile (· == '-') with hq
  have hqne : q ≠ [] := by
    intro hnil
    rw [hnil] at h
    simp at h
  rw [getLast?_dropWhile_of_ne_nil _ hqne, List.getLast?_reverse] at h
  exact head?_dropWhile_false (p := fun x => x == '-') h

/-- After stripping, the last character is never a hyphen. -/
theorem stripEdgeHyphens_last {l : List Char} {c : Char}
    (h : (stripEdgeHyphens l).getLast? = some c) : (c == '-') = false := by
  unfold stripEdgeHyphens at h
  rw [List.getLast?_reverse] at h
  exact head?_dropWhile_false (p := fun x => x == '-') h

/-- C4: the claim's general part holds of `slugifyTitle` itself — for every
title the core slug uses only lowercase alphanumerics and hyphens with no
edge hyphen — but it fails for the saved slug of the timestamp-suffix
variant on a title with no alphanumeric character: `slugifyTitle` collapses
such a title to the empty string and `EventSchema.pre('save')`
(src/database/event.model.ts line 137) then stores `"-" + Date.now().toString(36)`,
which starts with a hyphen. The repository's own test
("should handle title with only special characters",
src/__tests__/database/event.model.test.ts) expects the saved slug to match
`/^[a-z0-9]+$/`, which `"-0"` does not. -/
theorem slug_shape_and_special_title_eval :
    (∀ title : String,
      (slugifyTitle title).data.all slugCharOk = true ∧
      (∀ c : Char, (slugifyTitle title).data.head? = some c → c ≠ '-') ∧
      (∀ c : Char, (slugifyTitle title).data.getLast? = some c → c ≠ '-')) ∧
    slugifyTitle "@@@ !!!" = "" ∧
    eventSlug "@@@ !!!" 0 = "-0" ∧
    (eventSlug "@@@ !!!" 0).data.head? = some '-' := by
  have e0 : toBase36List 0 = ['0'] := by
    rw [toBase36List.eq_def]; norm_num; rfl
  have hslug0 : eventSlug "@@@ !!!" 0 = "-0" := by
    show slugifyTitle "@@@ !!!" ++ "-" ++ toBase36 0 = "-0"
    simp only [toBase36, e0]
    rfl
  refine ⟨?_, rfl, hslug0, ?_⟩
  · intro title
    refine ⟨stripEdgeHyphens_all (collapseNonAlnum_all _ false), ?_, ?_⟩
    · intro c hc
      have := stripEdgeHyphens_head hc
      simpa using this
    · intro c hc
      have := stripEdgeHyphens_last hc
      simpa using this
  · rw [hslug0]
    rfl

/-- Concrete instantiation of the universally quantified part of
`slug_shape_and_special_title_eval`. -/
theorem slug_shape_and_special_title_eval_witness :
    (slugifyTitle "Event@2024! & More...").data.all slugCharOk = true :=
  (slug_shape_and_special_title_eval.1 "Event@2024! & More...").1

/-- C5: the referenced-event lookup of the booking pre-save hook runs
exactly when the record is new or its `eventId` changed; in that case the
save fails with ReferenceError precisely when no such event exists (and a
failed save writes nothing, the pipeline returning an error instead of a new
store); when neither condition holds the hook returns early — no lookup is
performed and a dangling `eventId` does not fail the save. -/
theorem bookingPreSave_lookup_iff :
    ∀ (isNew modifiedEventId : Bool) (events : List Nat) (eventId : Nat),
      ((bookingPreSave isNew modifiedEventId events eventId).1 = (isNew || modifiedEventId)) ∧
      ((isNew || modifiedEventId) = true →
        ((bookingPreSave isNew modifiedEventId events eventId).2 =
            Except.error BookingError.referenceError ↔ eventId ∉ events)) ∧
      ((isNew || modifiedEventId) = false →
        (bookingPreSave isNew modifiedEventId events eventId).1 = false ∧
        (bookingPreSave isNew modifiedEventId events eventId).2 = Except.ok ()) ∧
      (∀ (st : Store) (email : String), isNew = true →
        emailRegexTest (normalizeEmail email) = true → eventId ∉ st.events →
        saveNewBooking st eventId email = Except.error BookingError.referenceError) := by
  intro isNew modifiedEventId events eventId
  refine ⟨?_, ?_, ?_, ?_⟩
  · cases isNew <;> cases modifiedEventId <;>
      by_cases h : eventId ∈ events <;> simp [bookingPreSave, h]
  · intro hrun
    cases isNew <;> cases modifiedEventId <;> simp at hrun <;>
      by_cases h : eventId ∈ events <;> simp [bookingPreSave, h]
  · intro hskip
    cases isNew <;> cases modifiedEventId <;> simp at hskip <;> simp [bookingPreSave]
  · intro st email _ hemail hev
    simp [saveNewBooking, hemail, hev]

/-- Concrete instantiation of `bookingPreSave_lookup_iff`: an already-saved
booking whose `eventId` was not touched skips the lookup and succeeds even
though event 7 does not exist, while a new booking referencing event 7 fails.
-/
theorem bookingPreSave_lookup_iff_witness :
    (bookingPreSave false false [] 7).2 = Except.ok () ∧
    saveNewBooking ⟨[], []⟩ 7 "user@example.com" =
      Except.error BookingError.referenceError := by
  constructor
  · exact ((bookingPreSave_lookup_iff false false [] 7).2.2.1 rfl).2
  · exact (bookingPreSave_lookup_iff true false [] 7).2.2.2 ⟨[], []⟩ "user@example.com"
      rfl (by rfl) (by simp)

/-- C6: email normalization (trim then lower-case) happens before the
uniqueness check: once a booking for `(eventId, e)` is stored, any second
booking attempt for the same event whose submitted email normalizes to `e`
fails with a uniqueness violation, whatever its case or surrounding
whitespace; and a successful save stores the normalized email. -/
theorem booking_uniqueness_normalized :
    normalizeEmail "TEST@EXAMPLE.COM" = "test@example.com" ∧
    normalizeEmail "  test@example.com  " = "test@example.com" ∧
    (∀ (st st' : Store) (eventId : Nat) (email email' : String),
      saveNewBooking st eventId email = Except.ok st' →
      normalizeEmail email' = normalizeEmail email →
      saveNewBooking st' eventId email' = Except.error BookingError.uniquenessError) ∧
    (∀ (st st' : Store) (eventId : Nat) (email : String),
      saveNewBooking st eventId email = Except.ok st' →
      (eventId, normalizeEmail email) ∈ st'.bookings) := by
  refine ⟨rfl, rfl, ?_, ?_⟩
  · intro st st' eventId email email' hok hnorm
    unfold saveNewBooking at hok ⊢
    rw [hnorm]
    by_cases he : emailRegexTest (normalizeEmail email) = false
    · simp [he] at hok
    · simp only [he, if_false] at hok ⊢
      by_cases hev : eventId ∈ st.events
      · simp only [hev, if_true] at hok
        by_cases hdup : (eventId, normalizeEmail email) ∈ st.bookings
        · simp [hdup] at hok
        · simp only [hdup, if_false] at hok
          have hst' : st' = ⟨st.events, (eventId, normalizeEmail email) :: st.bookings⟩ := by
            injection hok with h1
            exact h1.symm
          subst hst'
          simp [hev]
      · simp [hev] at hok
  · intro st st' eventId email hok
    unfold saveNewBooking at hok
    by_cases he : emailRegexTest (normalizeEmail email) = false
    · simp [he] at hok
    · simp only [he, if_false] at hok
      by_cases hev : eventId ∈ st.events
      · simp only [hev, if_true] at hok
        by_cases hdup : (eventId, normalizeEmail email) ∈ st.bookings
        · simp [hdup] at hok
        · simp only [hdup, if_false] at hok
          have hst' : st' = ⟨st.events, (eventId, normalizeEmail email) :: st.bookings⟩ := by
            injection hok with h1
            exact h1.symm
          subst hst'
          simp
      · simp [hev] at hok

/-- Concrete instantiation of `booking_uniqueness_normalized`: after booking
event 3 as "test@example.com", re-booking it as "  TEST@EXAMPLE.COM  " hits
the unique index. -/
theorem booking_uniqueness_normalized_witness :
    saveNewBooking ⟨[3], [(3, "test@example.com")]⟩ 3 "  TEST@EXAMPLE.COM  " =
      Except.error BookingError.uniquenessError := by
  have h1 : saveNewBooking ⟨[3], []⟩ 3 "test@example.com" =
      Except.ok ⟨[3], [(3, "test@example.com")]⟩ := by rfl
  exact booking_uniqueness_normalized.2.2.1 ⟨[3], []⟩ ⟨[3], [(3, "test@example.com")]⟩
    3 "test@example.com" "  TEST@EXAMPLE.COM  " h1 (by rfl)

/-- C7: where the connection string is read. In the call-time revisions the
module loads successfully whatever the environment and only a
`connectToDatabase()` call fails when the string is unset; but the fail-fast
revision of src/lib/mongodb.ts reads `MONGODB_URI` at module load and
loading itself fails when it is unset — contradicting the claim that merely
loading the Connection Manager module without configuration does not fail
the process (and contradicting the repository's own connection tests, which
assume the string is re-read on every call). -/
theorem connection_string_read_time :
    moduleLoadFailFast none = Except.error DbError.configurationError ∧
    (∀ uri : String, moduleLoadFailFast (some uri) = Except.ok uri) ∧
    (∀ env : Option String, moduleLoadCallTime env = Except.ok ()) ∧
    (∀ (cache : MongooseCache) (attempt : Except DbError Nat),
      connectToDatabase none cache attempt =
        (cache, Except.error DbError.configurationError)) := by
  refine ⟨rfl, fun uri => rfl, fun env => rfl, fun cache attempt => rfl⟩

/-- C8: failure handling of the call-time connection manager. A caller that
starts an attempt which fails gets the attempt's error and leaves the cache
empty with the in-flight marker cleared; a caller that joins an in-flight
failing attempt gets the same error and likewise clears the marker; a
subsequent call then starts a fresh attempt and succeeds when its outcome is
a connection; and no call ever caches a connection when it returns an error.
-/
theorem connect_failure_clears_and_retries :
    (∀ (uri : String) (e : DbError),
      connectToDatabase (some uri) ⟨none, none⟩ (Except.error e) =
        (⟨none, none⟩, Except.error e)) ∧
    (∀ (uri : String) (e : DbError) (attempt : Except DbError Nat),
      connectToDatabase (some uri) ⟨none, some (Except.error e)⟩ attempt =
        (⟨none, none⟩, Except.error e)) ∧
    (∀ (uri : String) (c : Nat),
      connectToDatabase (some uri) ⟨none, none⟩ (Except.ok c) =
        (⟨some c, some (Except.ok c)⟩, Except.ok c)) ∧
    (∀ (env : Option String) (cache : MongooseCache)
        (attempt : Except DbError Nat) (e : DbError),
      (connectToDatabase env cache attempt).2 = Except.error e →
      (connectToDatabase env cache attempt).1.conn = cache.conn) := by
  refine ⟨fun uri e => rfl, fun uri e attempt => rfl, fun uri c => rfl, ?_⟩
  intro env cache attempt e herr
  match env with
  | none => rfl
  | some uri =>
    match hc : cache.conn with
    | some c => simp [connectToDatabase, hc] at herr
    | none =>
      simp only [connectToDatabase, hc] at herr ⊢
      match hp : cache.promise with
      | some (Except.ok c) => simp [hp] at herr
      | some (Except.error e') => simp [hp, hc]
      | none =>
        match ha : attempt with
        | Except.ok c => simp [hp, ha] at herr
        | Except.error e' => simp [hp, ha, hc]

/-- Concrete instantiation of the hypothesis-bearing clause of
`connect_failure_clears_and_retries`: a failing call never populates the
connection cell. -/
theorem connect_failure_clears_and_retries_witness :
    (connectToDatabase (some "mongodb://h/db") ⟨none, none⟩
        (Except.error DbError.connectionError)).1.conn = none :=
  connect_failure_clears_and_retries.2.2.2 (some "mongodb://h/db") ⟨none, none⟩
    (Except.error DbError.connectionError) DbError.connectionError rfl

/-- C10: the call-time `connectToDatabase` checks the configuration before
consulting the cache — with the string unset the call fails with the
configuration error even when a live connection is cached, and the cache is
left untouched. -/
theorem connect_checks_config_before_cache :
    ∀ (c : Nat) (promise : Option (Except DbError Nat)) (attempt : Except DbError Nat),
      connectToDatabase none ⟨some c, promise⟩ attempt =
        (⟨some c, promise⟩, Except.error DbError.configurationError) :=
  fun c promise attempt => rfl

/-- A string is empty exactly when its character list is. -/
theorem string_eq_empty_iff (s : String) : s = "" ↔ s.data = [] := by
  constructor
  · intro h; rw [h]
  · intro h
    cases s with
    | mk d =>
      have hd : d = [] := h
      subst hd
      rfl

/-- C9 counterexample: the part_001 variant's validator accepts an agenda
(or tags) list whose sole entry is blank — `[" "]` is non-empty, which is
all that validator checks — so an event carrying a blank agenda entry is
not rejected by save in that variant, while the event.model.ts validator
does reject it. -/
theorem blank_entry_accepted_by_v1_validator :
    agendaTagsValidatorV1 [" "] = true ∧ agendaTagsValidator [" "] = false := by
  constructor
  · rfl
  · rfl

/-- C9 amended: in the event.model.ts variant the validator accepts exactly
the non-empty lists all of whose entries are non-blank after trimming, so
the invariant holds of every persisted event there; the part_001 variant
enforces only non-emptiness. -/
theorem agenda_tags_validators_characterization :
    (∀ v : List String,
      agendaTagsValidator v = true ↔ v ≠ [] ∧ ∀ s ∈ v, jsTrim s ≠ "") ∧
    (∀ v : List String, agendaTagsValidatorV1 v = true ↔ v ≠ []) := by
  constructor
  · intro v
    simp only [agendaTagsValidator, Bool.and_eq_true, decide_eq_true_eq,
      List.all_eq_true, List.length_pos]
    constructor
    · rintro ⟨h1, h2⟩
      refine ⟨h1, fun s hs => ?_⟩
      have := h2 s hs
      simp only [decide_eq_true_eq] at this
      intro hempty
      rw [string_eq_empty_iff] at hempty
      have hlen : (jsTrim s).length = 0 := by
        show (jsTrim s).data.length = 0
        rw [hempty]
        rfl
      omega
    · rintro ⟨h1, h2⟩
      refine ⟨h1, fun s hs => ?_⟩
      have hne := h2 s hs
      have hne' : (jsTrim s).data ≠ [] :=
        fun h0 => hne ((string_eq_empty_iff _).mpr h0)
      have : (jsTrim s).data.length ≠ 0 :=
        fun h0 => hne' (List.eq_nil_of_length_eq_zero h0)
      show 0 < (jsTrim s).data.length
      omega
  · intro v
    simp [agendaTagsValidatorV1, List.length_pos]

/-- Concrete instantiation of `agenda_tags_validators_characterization`. -/
theorem agenda_tags_validators_characterization_witness :
    agendaTagsValidator ["keynote"] = true :=
  (agenda_tags_validators_characterization.1 ["keynote"]).mpr
    ⟨by simp, by
      intro s hs
      simp only [List.mem_singleton] at hs
      subst hs
      decide⟩

end DevEvent
